import Mathlib

/-!
# A shallow embedding of `tabwriter` (beevik/tabwriter)

This file models the Go package `tabwriter` (file `tabwriter.go`): a write
filter that buffers tab-delimited cells and, on flush, emits the buffered
rows with per-column padding.  Bytes are modelled as `Nat` (values 0..255),
byte slices as `List Nat`, Go `int` as `Int` (no overflow is relevant at the
sizes involved), and the output stream as an explicitly returned `List Nat`.
The writer's mutable state is threaded explicitly.  Go code that would panic
(out-of-range indexing on unreachable paths) is modelled with total `getD`
accessors; every theorem below either supplies the reachability hypotheses or
is insensitive to those paths.
-/

namespace Tabwriter

/-- Byte-size of the UTF-8 encoded rune starting a byte list, exactly as Go's
`unicode/utf8.DecodeRune` computes it: ASCII and invalid/truncated sequences
have size 1 (Go returns `RuneError, 1` for the latter), valid multi-byte
sequences have their encoded length.  The empty list has size 0 (Go returns
`RuneError, 0`). -/
def decodeRuneSize (p : List Nat) : Nat :=
  match p with
  | [] => 0
  | b0 :: rest =>
    if b0 < 0x80 then 1
    else if b0 < 0xC2 then 1
    else if b0 < 0xE0 then
      match rest with
      | b1 :: _ => if 0x80 ≤ b1 ∧ b1 ≤ 0xBF then 2 else 1
      | _ => 1
    else if b0 < 0xF0 then
      match rest with
      | b1 :: b2 :: _ =>
        if (if b0 = 0xE0 then 0xA0 else 0x80) ≤ b1 ∧ b1 ≤ (if b0 = 0xED then 0x9F else 0xBF) then
          if 0x80 ≤ b2 ∧ b2 ≤ 0xBF then 3 else 1
        else 1
      | _ => 1
    else if b0 < 0xF5 then
      match rest with
      | b1 :: b2 :: b3 :: _ =>
        if (if b0 = 0xF0 then 0x90 else 0x80) ≤ b1 ∧ b1 ≤ (if b0 = 0xF4 then 0x8F else 0xBF) then
          if 0x80 ≤ b2 ∧ b2 ≤ 0xBF then
            if 0x80 ≤ b3 ∧ b3 ≤ 0xBF then 4 else 1
          else 1
        else 1
      | _ => 1
    else 1

/-- Number of runes in a byte list, as Go's `unicode/utf8.RuneCount`:
repeatedly advance by `decodeRuneSize`.  Defined by structural recursion
(the recursive argument is a strict suffix in every branch). -/
def runeCount : List Nat → Nat
  | [] => 0
  | b0 :: rest =>
    match rest, decodeRuneSize (b0 :: rest) with
    | _ :: r, 2 => 1 + runeCount r
    | _ :: _ :: r, 3 => 1 + runeCount r
    | _ :: _ :: _ :: r, 4 => 1 + runeCount r
    | r, _ => 1 + runeCount r

/-- Go slice `l[a:b]`. -/
def listSlice (l : List Nat) (a b : Nat) : List Nat :=
  (l.drop a).take (b - a)

/-- Go `format`: per-column output settings. -/
structure Format where
  minwidth : Int
  padding : Int
  flags : Nat
  deriving DecidableEq, Repr

/-- Go `formatDesc`: settings for description rows. -/
structure FormatDesc where
  indent : Int
  wordwrap : Int
  deriving DecidableEq, Repr

/-- Go `cell`. -/
structure Cell where
  size : Nat
  width : Int
  maxwidth : Int
  term : Bool
  deriving DecidableEq, Repr

def emptyCell : Cell := ⟨0, 0, 0, false⟩

/-- Go `line`: the cells of a row plus its (possibly empty) description cell. -/
structure Line where
  cells : List Cell
  description : Cell
  deriving DecidableEq, Repr

def emptyLine : Line := ⟨[], emptyCell⟩

/-- Which finalizer the `addCell` function pointer of the Go writer currently
holds (`addCellToLine` or `addCellToDescription`). -/
inductive AddCellMode where
  | toLine
  | toDescription
  deriving DecidableEq, Repr

/-- The configuration fields of the Go `Writer` (those set by `NewWriter` /
`SetColumnFormat` / `SetDescriptionFormat` and untouched by writes and
flushes). -/
structure Config where
  tabwidth : Int
  padchar : Nat
  format : Format
  formatColumn : List Format
  formatColumnBits : Nat
  formatDescription : FormatDesc
  deriving DecidableEq, Repr

/-- The Go `Writer`: configuration plus the buffered state.  The underlying
`output io.Writer` is modelled by returning emitted bytes from each
operation; `padbytes` (8 copies of `padchar`, used by `writePadding` to emit
`n` pad characters in chunks) is modelled directly by replication. -/
structure Writer where
  config : Config
  buf : List Nat
  lines : List Line
  cell : Cell
  addCell : AddCellMode
  descmode : Bool
  deriving DecidableEq, Repr

/-- Go `reset`: clear the buffered state (`buf.Reset`, `cell = {}`,
`lines = lines[0:0]`) and `addNewLine` (append one empty line, reset the
cell finalizer and description mode). -/
def reset (w : Writer) : Writer :=
  { w with buf := [], cell := emptyCell, lines := [emptyLine],
           addCell := AddCellMode.toLine, descmode := false }

/-- Go `NewWriter` (the `output` sink is implicit in our model). -/
def newWriter (minwidth tabwidth padding : Int) (padchar : Nat) (flags : Nat) : Writer :=
  reset { config := { tabwidth := tabwidth, padchar := padchar,
                      format := ⟨minwidth, padding, flags⟩,
                      formatColumn := [], formatColumnBits := 0,
                      formatDescription := ⟨8, 72⟩ },
          buf := [], lines := [], cell := emptyCell,
          addCell := AddCellMode.toLine, descmode := false }

/-- Go `getFormat`: the format for column `col` — the per-column override
when `col < 64` and its bit is set in `formatColumnBits`, else the default. -/
def getFormat (w : Writer) (col : Nat) : Format :=
  if 64 ≤ col ∨ w.config.formatColumnBits &&& (1 <<< col) = 0 then w.config.format
  else w.config.formatColumn.getD col ⟨0, 0, 0⟩

/-- Go `SetColumnFormat`: record a per-column override; a no-op for
`col >= 64`.  Growing the backing array pads with zero formats, as Go's
`make`/`copy` does. -/
def setColumnFormat (w : Writer) (col : Nat) (minwidth padding : Int) (flags : Nat) : Writer :=
  if 64 ≤ col then w
  else
    let fc := if w.config.formatColumn.length ≤ col
              then w.config.formatColumn ++
                   List.replicate (col + 1 - w.config.formatColumn.length) (⟨0, 0, 0⟩ : Format)
              else w.config.formatColumn
    { w with config := { w.config with
        formatColumn := fc.set col ⟨minwidth, padding, flags⟩,
        formatColumnBits := w.config.formatColumnBits ||| (1 <<< col) } }

/-- Go `SetDescriptionFormat`. -/
def setDescriptionFormat (w : Writer) (indent wordwrap : Int) : Writer :=
  { w with config := { w.config with formatDescription := ⟨indent, wordwrap⟩ } }

/-- Go `addTextToCell`: append raw bytes to the buffer and grow the working
cell. -/
def addTextToCell (w : Writer) (text : List Nat) : Writer :=
  { w with buf := w.buf ++ text, cell := { w.cell with size := w.cell.size + text.length } }

/-- The last (working) line; Go indexes `w.lines[len(w.lines)-1]` (the lines
list is never empty in reachable states). -/
def lastLine (w : Writer) : Line :=
  w.lines.getLastD emptyLine

/-- Replace the last line by `f` of it (Go mutates `&w.lines[len-1]`). -/
def updateLastLine (f : Line → Line) (ls : List Line) : List Line :=
  ls.dropLast ++ [f (ls.getLastD emptyLine)]

/-- Mark the last cell of a row as terminal (Go
`line.cells[len(line.cells)-1].term = true`; only reached on non-empty
rows). -/
def setLastTerm (cs : List Cell) : List Cell :=
  cs.dropLast ++ [{ cs.getLastD emptyCell with term := true }]

/-- Go `addNewLine`: append a fresh empty line and reset the finalizer to
`addCellToLine`, leaving description mode. -/
def addNewLine (w : Writer) : Writer :=
  { w with lines := w.lines ++ [emptyLine], addCell := AddCellMode.toLine, descmode := false }

/-- Go `addCellToDescription`: finalize the working cell as the current
line's description (the `term` argument is ignored, as in the source). -/
def addCellToDescription (w : Writer) (_term : Bool) : Writer :=
  let width : Int := runeCount (w.buf.drop (w.buf.length - w.cell.size))
  let ls := updateLastLine (fun l => { l with description := { w.cell with width := width } }) w.lines
  { w with lines := ls, cell := emptyCell }

/-- One cell of Go `tabifyLine`: round `maxwidth` up to the next multiple of
`tabwidth` (Go `%` on `int` is truncated division remainder, `Int.tmod`). -/
def tabifyCell (tabwidth : Int) (c : Cell) : Cell :=
  let remainder := c.maxwidth.tmod tabwidth
  if remainder ≠ 0 then { c with maxwidth := c.maxwidth + (tabwidth - remainder) } else c

/-- Go `tabifyLine`. -/
def tabifyLine (w : Writer) (l : Line) : Line :=
  { l with cells := l.cells.map (tabifyCell w.config.tabwidth) }

/-- The body of the inner loop of Go `Flush`'s upward pass: for
`j < jc` overwrite `prev.cells[j].maxwidth` with
`max(prev.cells[j].maxwidth, curr.cells[j].maxwidth)`.  Translated as a
recursion over `prev`'s cells with `curr`'s cells and the remaining
iteration count walking in step. -/
def mergeCells : List Cell → List Cell → Nat → List Cell
  | [], _, _ => []
  | p :: ps, cs, jc =>
    (if 0 < jc then
       match cs with
       | c :: _ => { p with maxwidth := max p.maxwidth c.maxwidth }
       | [] => p
     else p) :: mergeCells ps cs.tail (jc - 1)

/-- One step of the upward pass: propagate `curr`'s accumulated maxwidths
into `prev`, for column indices `j < min(len(prev.cells)-1, len(curr.cells)-1)`
(Go computes the bound with `int` subtraction; for empty rows the bound is
negative and the loop body never runs, which truncated `Nat` subtraction
reproduces). -/
def mergeInto (prev curr : Line) : Line :=
  { prev with cells := mergeCells prev.cells curr.cells
                         (min (prev.cells.length - 1) (curr.cells.length - 1)) }

/-- The conditional tab-rounding of the `Flush` loop body
(`if w.padchar == '\t' { w.tabifyLine(curr) }`). -/
def tabifyLineIf (w : Writer) (l : Line) : Line :=
  if w.config.padchar = 9 then tabifyLine w l else l

/-- The maxwidth-adjustment loop of Go `Flush` (`for i := len(w.lines) - 1;
i > 0; i--`): processing rows from last to first, each row with index `i ≥ 1`
is tab-rounded when the pad character is a tab, then merged into its
predecessor.  The recursion below replays the loop: the sub-call handles
iterations `i ≥ 2` (which only touch rows `1..`), and the head step performs
iteration `i = 1` (tab-round row 1's current value, merge into row 0).
Row 0 is never tab-rounded, exactly as in the source. -/
def propagate (w : Writer) : List Line → List Line
  | [] => []
  | [l] => [l]
  | l0 :: l1 :: t =>
    let r := propagate w (l1 :: t)
    mergeInto l0 (tabifyLineIf w (r.headD emptyLine))
      :: tabifyLineIf w (r.headD emptyLine) :: r.tail

/-- Go `writePadding(n)`: emit `n` copies of the pad character (the source
emits them in chunks of `len(padbytes) = 8`; the emitted bytes are the
same). -/
def padRep (w : Writer) (n : Int) : List Nat :=
  List.replicate n.toNat w.config.padchar

/-- Go `writeCell`: emit a cell's text and its padding.  The four cases of
the source `switch` in order: zero padding or a terminal cell of a
non-right-aligned column emit the text alone; a tab pad character emits the
text then `(padding + tabwidth - 1) / tabwidth` tabs; a right-aligned column
emits `padding - 1` pads, the text, and one trailing pad unless terminal;
otherwise text then `padding` pads. -/
def writeCell (w : Writer) (text : List Nat) (padding : Int) (f : Format) (term : Bool) : List Nat :=
  if padding = 0 ∨ (term ∧ f.flags &&& 1 = 0) then text
  else if w.config.padchar = 9 then
    text ++ padRep w ((padding + w.config.tabwidth - 1).tdiv w.config.tabwidth)
  else if f.flags &&& 1 ≠ 0 then
    padRep w (padding - 1) ++ text ++ (if term then [] else padRep w 1)
  else text ++ padRep w padding

/-- The inner loop of Go `writeDescription`: scan the segment starting at
`p0 = p` with running column `col`, remembering the last space seen
(`lastspace`).  At a `'\r'` or the end of the text, emit the segment and a
newline and resume after the terminator; after consuming a rune, if the
column count exceeds `ww` and a space has been seen, emit up to that last
space and resume after it.  `fuel` bounds the number of iterations (each
iteration advances `p` by at least one byte, so `text.length + 1 - p` fuel
is always enough; the fuel-exhausted value is never reached then). -/
def scanLine (ww : Int) (text : List Nat) : Nat → Nat → Nat → Int → Option Nat → List Nat × Nat
  | 0, _, p, _, _ => ([], p + 1)
  | fuel + 1, p0, p, col, lastspace =>
    if text.length ≤ p then (listSlice text p0 p ++ [10], p + 1)
    else if text.getD p 0 = 13 then (listSlice text p0 p ++ [10], p + 1)
    else
      let lastspace' := if text.getD p 0 = 32 then some p else lastspace
      let p' := p + decodeRuneSize (text.drop p)
      let col' := col + 1
      if col' > ww ∧ lastspace'.isSome then
        (listSlice text p0 (lastspace'.getD 0) ++ [10], lastspace'.getD 0 + 1)
      else scanLine ww text fuel p0 p' col' lastspace'

/-- Number of scan steps (runes) from position `p` to the next `'\r'` or the
end of `text`, advancing exactly as the inner loop of `writeDescription`
does.  Used only to state the word-wrap theorems (it is the amount the
running column grows by over an unbroken segment). -/
def stepsFrom (text : List Nat) : Nat → Nat → Nat
  | 0, _ => 0
  | fuel + 1, p =>
    if text.length ≤ p ∨ text.getD p 0 = 13 then 0
    else 1 + stepsFrom text fuel (p + decodeRuneSize (text.drop p))

/-- The outer loop of Go `writeDescription`: while bytes remain, emit the
indent padding (tab-rounded when the pad character is a tab) and scan/emit
one output line.  `fuel` bounds the iterations; each one advances `p`. -/
def writeDescLoop (w : Writer) (text : List Nat) : Nat → Nat → List Nat
  | 0, _ => []
  | fuel + 1, p =>
    if p < text.length then
      (if w.config.padchar = 9 then
         padRep w ((w.config.formatDescription.indent + w.config.tabwidth - 1).tdiv w.config.tabwidth)
       else padRep w w.config.formatDescription.indent) ++
      (scanLine w.config.formatDescription.wordwrap text (text.length + 1 - p) p p
         w.config.formatDescription.indent none).1 ++
      writeDescLoop w text fuel
        (scanLine w.config.formatDescription.wordwrap text (text.length + 1 - p) p p
           w.config.formatDescription.indent none).2
    else []

/-- Go `writeDescription`. -/
def writeDescription (w : Writer) (text : List Nat) : List Nat :=
  writeDescLoop w text (text.length + 1) 0

/-- The per-line cell loop of Go `Flush`'s output phase: emit each cell's
text (the next `size` bytes of the buffer) with its padding and format,
returning the emitted bytes and the advanced buffer position. -/
def renderCells (w : Writer) : List Cell → Nat → Nat → List Nat × Nat
  | [], _, p => ([], p)
  | c :: rest, j, p =>
    let o := writeCell w (listSlice w.buf p (p + c.size)) (c.maxwidth - c.width) (getFormat w j) c.term
    let r := renderCells w rest (j + 1) (p + c.size)
    (o ++ r.1, r.2)

/-- The line loop of Go `Flush`'s output phase: cells, a newline, then the
description block when present. -/
def renderLines (w : Writer) : List Line → Nat → List Nat
  | [], _ => []
  | l :: rest, p =>
    let rc := renderCells w l.cells 0 p
    let o2 := if 0 < l.description.size then
                writeDescription w (listSlice w.buf rc.2 (rc.2 + l.description.size))
              else []
    let p' := if 0 < l.description.size then rc.2 + l.description.size else rc.2
    rc.1 ++ [10] ++ o2 ++ renderLines w rest p'

/-- Go `Flush`'s first adjustment: drop the last buffered line when it has no
cells. -/
def stripLastEmpty (ls : List Line) : List Line :=
  if (ls.getLastD emptyLine).cells = [] then ls.dropLast else ls

/-- The buffered lines as `Flush` renders them: last empty line stripped,
then the tab-rounding/upward-propagation pass. -/
def flushLines (w : Writer) : List Line :=
  propagate w (stripLastEmpty w.lines)

/-- The body of Go `Flush` after the initial working-cell finalization:
adjust the buffered lines, render them, and reset the writer. -/
def flushAux (w : Writer) : List Nat × Writer :=
  (renderLines w (flushLines w) 0, reset w)

/-- Go `addCellToLine`: finalize the working cell.  The special case — a
terminating empty cell — either flushes (empty row) or marks the previous
cell terminal; otherwise the cell's `maxwidth` is seeded with
`max(minwidth, width + padding)` and, when the previous row has a cell at
the same column index other than its last, maxed with that cell's
`maxwidth`, and the cell is appended to the working line.  Returns the
bytes emitted (non-empty only on the flushing path). -/
def addCellToLine (w : Writer) (term : Bool) : List Nat × Writer :=
  let width : Int := runeCount (w.buf.drop (w.buf.length - w.cell.size))
  let wcell := { w.cell with width := width }
  if term ∧ w.cell.size = 0 then
    if (lastLine w).cells = [] then
      let r := flushAux { w with cell := wcell }
      (r.1, { r.2 with cell := emptyCell })
    else
      let ls := updateLastLine (fun l => { l with cells := setLastTerm l.cells }) w.lines
      ([], { w with lines := ls, cell := emptyCell })
  else
    let col := (lastLine w).cells.length
    let fmt := getFormat w col
    let mw0 := max fmt.minwidth (width + fmt.padding)
    let prev := w.lines.getD (w.lines.length - 2) emptyLine
    let mw := if 1 < w.lines.length ∧ col < prev.cells.length - 1
              then max mw0 ((prev.cells.getD col emptyCell).maxwidth)
              else mw0
    let ls := updateLastLine
      (fun l => { l with cells := l.cells ++ [{ wcell with maxwidth := mw, term := term }] }) w.lines
    ([], { w with lines := ls, cell := emptyCell })

/-- Invoke the writer's current `addCell` function pointer. -/
def dispatchAddCell (w : Writer) (term : Bool) : List Nat × Writer :=
  match w.addCell with
  | AddCellMode.toLine => addCellToLine w term
  | AddCellMode.toDescription => ([], addCellToDescription w term)

/-- Go `Flush`: finalize a non-empty working cell, then adjust, render and
reset. -/
def flush (w : Writer) : List Nat × Writer :=
  if 0 < w.cell.size then
    let r := dispatchAddCell w true
    let r2 := flushAux r.2
    (r.1 ++ r2.1, r2.2)
  else flushAux w

/-- The byte loop of Go `Write`.  `pending` holds the literal bytes
`buf[n:i]` not yet passed to `addTextToCell`; `'\t'`/`'\v'` finalize a cell
(or become a space in description mode), `'\n'` finalizes the cell and the
line, `'\f'` additionally flushes, `'\r'` (outside description mode)
finalizes the cell and enters description mode, and every other byte is
literal text. -/
def writeLoop (w : Writer) (pending : List Nat) : List Nat → List Nat × Writer
  | [] => ([], addTextToCell w pending)
  | ch :: rest =>
    if ch = 9 ∨ ch = 11 then
      let w1 := addTextToCell w pending
      if w1.descmode then writeLoop (addTextToCell w1 [32]) [] rest
      else
        let r := dispatchAddCell w1 false
        let r2 := writeLoop r.2 [] rest
        (r.1 ++ r2.1, r2.2)
    else if ch = 10 then
      let w1 := addTextToCell w pending
      let r := dispatchAddCell w1 true
      let r2 := writeLoop (addNewLine r.2) [] rest
      (r.1 ++ r2.1, r2.2)
    else if ch = 12 then
      let w1 := addTextToCell w pending
      let r := dispatchAddCell w1 true
      let rf := flush r.2
      let r2 := writeLoop rf.2 [] rest
      (r.1 ++ rf.1 ++ r2.1, r2.2)
    else if ch = 13 then
      if w.descmode = false then
        let w1 := addTextToCell w pending
        let r := dispatchAddCell w1 true
        let r2 := writeLoop { r.2 with descmode := true, addCell := AddCellMode.toDescription } [] rest
        (r.1 ++ r2.1, r2.2)
      else writeLoop w (pending ++ [13]) rest
    else writeLoop w (pending ++ [ch]) rest

/-- Go `Write` (the returned byte count is always the full input and the
error always `nil`; we return the bytes emitted to the underlying sink and
the new state). -/
def write (w : Writer) (input : List Nat) : List Nat × Writer :=
  writeLoop w [] input

/-- One write-then-flush cycle: all bytes emitted by `write` (eager flushes
included) followed by the bytes emitted by `flush`. -/
def cycle (w : Writer) (input : List Nat) : List Nat × Writer :=
  let r := write w input
  let rf := flush r.2
  (r.1 ++ rf.1, rf.2)

/-! ## Helper lemmas -/

theorem addTextToCell_nil (w : Writer) : addTextToCell w [] = w := by
  simp only [addTextToCell, List.append_nil, List.length_nil, Nat.add_zero]

theorem addCellToLine_false_fst (w : Writer) : (addCellToLine w false).1 = [] := by
  unfold addCellToLine
  simp

theorem dispatchAddCell_false_fst (w : Writer) : (dispatchAddCell w false).1 = [] := by
  unfold dispatchAddCell
  cases w.addCell
  · exact addCellToLine_false_fst w
  · rfl

theorem addCellToLine_config (w : Writer) (t : Bool) :
    (addCellToLine w t).2.config = w.config := by
  unfold addCellToLine flushAux reset
  dsimp only
  split
  · split <;> rfl
  · rfl

theorem addCellToDescription_config (w : Writer) (t : Bool) :
    (addCellToDescription w t).config = w.config := rfl

theorem dispatchAddCell_config (w : Writer) (t : Bool) :
    (dispatchAddCell w t).2.config = w.config := by
  unfold dispatchAddCell
  cases w.addCell
  · exact addCellToLine_config w t
  · rfl

theorem reset_congr {x y : Writer} (h : x.config = y.config) : reset x = reset y := by
  unfold reset
  rw [h]

theorem flush_snd (w : Writer) : (flush w).2 = reset w := by
  unfold flush
  dsimp only
  split
  · show (flushAux _).2 = reset w
    exact reset_congr (dispatchAddCell_config w true)
  · rfl

theorem addTextToCell_config (w : Writer) (t : List Nat) :
    (addTextToCell w t).config = w.config := rfl

theorem writeLoop_config (s : List Nat) :
    ∀ (w : Writer) (pending : List Nat), (writeLoop w pending s).2.config = w.config := by
  induction s with
  | nil => intro w pending; exact addTextToCell_config w pending
  | cons ch rest ih =>
    intro w pending
    unfold writeLoop
    dsimp only
    split
    · split
      · exact ih _ _
      · rw [ih _ _, dispatchAddCell_config]; rfl
    · split
      · rw [ih _ _]
        show (addNewLine _).config = _
        rw [show ∀ x : Writer, (addNewLine x).config = x.config from fun _ => rfl,
            dispatchAddCell_config]
        rfl
      · split
        · rw [ih _ _, flush_snd]
          show (reset _).config = _
          rw [show ∀ x : Writer, (reset x).config = x.config from fun _ => rfl,
              dispatchAddCell_config]
          rfl
        · split
          · split
            · rw [ih _ _]
              show (dispatchAddCell _ true).2.config = _
              rw [dispatchAddCell_config]
              rfl
            · exact ih _ _
          · exact ih _ _

theorem write_config (w : Writer) (s : List Nat) : (write w s).2.config = w.config :=
  writeLoop_config s w []

theorem cycle_snd (w : Writer) (s : List Nat) : (cycle w s).2 = reset w := by
  unfold cycle
  dsimp only
  rw [flush_snd]
  exact reset_congr (write_config w s)

/-! ## C9 -/

/-- C9: a `SetColumnFormat` call with column index ≥ 64 leaves the writer
unchanged (a silent no-op); `getFormat` returns the default format for any
column index ≥ 64 and for any index whose override bit is unset; and an
override set for one column does not change the format looked up for any
other column. -/
theorem C9_column_format_bound (w : Writer) (col col' : Nat) (mw pad : Int) (fl : Nat) :
    (64 ≤ col → setColumnFormat w col mw pad fl = w)
    ∧ (64 ≤ col → getFormat w col = w.config.format)
    ∧ (w.config.formatColumnBits &&& (1 <<< col) = 0 → getFormat w col = w.config.format)
    ∧ (col' ≠ col → getFormat (setColumnFormat w col mw pad fl) col' = getFormat w col') := by
  refine ⟨?_, ?_, ?_, ?_⟩
  · intro h
    simp [setColumnFormat, h]
  · intro h
    simp [getFormat, h]
  · intro h
    simp [getFormat, h]
  · intro hne
    by_cases h64 : 64 ≤ col
    · simp [setColumnFormat, h64]
    · have hbits : ∀ b : Nat, (b ||| 1 <<< col) &&& 1 <<< col' = b &&& 1 <<< col' := by
        intro b
        simp only [Nat.one_shiftLeft]
        rw [Nat.and_two_pow, Nat.and_two_pow, Nat.testBit_or,
            Nat.testBit_two_pow_of_ne (fun h => hne h.symm), Bool.or_false]
      have hlist : ∀ l : List Format, ∀ f : Format,
          (((if l.length ≤ col then l ++ List.replicate (col + 1 - l.length) (⟨0, 0, 0⟩ : Format)
             else l).set col f).getD col' ⟨0, 0, 0⟩) = l.getD col' ⟨0, 0, 0⟩ := by
        intro l f
        rw [List.getD_eq_getElem?_getD, List.getD_eq_getElem?_getD,
            List.getElem?_set_ne (fun h => hne h.symm)]
        by_cases hl : l.length ≤ col
        · rw [if_pos hl, List.getElem?_append]
          by_cases hc : col' < l.length
          · rw [if_pos hc]
          · rw [if_neg hc, List.getElem?_replicate]
            have h1 : l[col']? = none := by
              rw [List.getElem?_eq_none_iff]
              omega
            rw [h1]
            split <;> rfl
        · rw [if_neg hl]
      unfold setColumnFormat getFormat
      rw [if_neg h64]
      dsimp only
      rw [hbits, hlist]

/-- Witness for C9: a call at column 64 is a no-op, and setting column 3
does not change the lookup of column 2. -/
theorem C9_column_format_bound_witness :
    setColumnFormat (newWriter 0 8 1 32 0) 64 5 2 1 = newWriter 0 8 1 32 0
    ∧ getFormat (setColumnFormat (newWriter 0 8 1 32 0) 3 5 2 1) 2
        = getFormat (newWriter 0 8 1 32 0) 2 :=
  ⟨(C9_column_format_bound (newWriter 0 8 1 32 0) 64 0 5 2 1).1 (by decide),
   (C9_column_format_bound (newWriter 0 8 1 32 0) 3 2 5 2 1).2.2.2 (by decide)⟩

/-! ## C10 -/

/-- C10 counterexample: the claim says no input byte other than a row
terminator arriving on an empty row can cause output during `Write`; but a
form-feed byte (`'\f'`, 12) always triggers a full flush.  Writing
`"a\f"` to a fresh writer emits `"a\n"` during the write — the row had a
cell, so this is not the empty-line eager flush. -/
theorem C10_no_implicit_output_cex :
    (write (newWriter 0 8 1 32 0) [97, 12]).1 = [97, 10]
    ∧ (write (newWriter 0 8 1 32 0) [97, 12]).1 ≠ [] := by
  constructor
  · decide
  · decide

/-- C10 (amended): a write call emits no bytes unless the input contains a
row terminator (`'\n'`, 10), a form feed (`'\f'`, 12, which always triggers
a full flush) or a description marker (`'\r'`, 13, which can trigger the
eager empty-row flush); any byte sequence free of those three control bytes
produces no output during `Write`. -/
theorem C10_write_emits_nothing (w : Writer) (s : List Nat)
    (h : ∀ c ∈ s, c ≠ 10 ∧ c ≠ 12 ∧ c ≠ 13) : (write w s).1 = [] := by
  suffices H : ∀ (s : List Nat) (w : Writer) (pending : List Nat),
      (∀ c ∈ s, c ≠ 10 ∧ c ≠ 12 ∧ c ≠ 13) → (writeLoop w pending s).1 = [] from
    H s w [] h
  intro s
  induction s with
  | nil => intro w pending _; rfl
  | cons ch rest ih =>
    intro w pending h
    obtain ⟨h10, h12, h13⟩ := h ch (List.mem_cons_self ch rest)
    have hrest : ∀ c ∈ rest, c ≠ 10 ∧ c ≠ 12 ∧ c ≠ 13 :=
      fun c hc => h c (List.mem_cons_of_mem ch hc)
    unfold writeLoop
    dsimp only
    by_cases h9 : ch = 9 ∨ ch = 11
    · rw [if_pos h9]
      by_cases hd : (addTextToCell w pending).descmode = true
      · rw [if_pos hd]
        exact ih _ _ hrest
      · rw [if_neg hd]
        dsimp only
        rw [dispatchAddCell_false_fst, ih _ _ hrest]
        rfl
    · rw [if_neg h9, if_neg h10, if_neg h12, if_neg h13]
      exact ih _ _ hrest

/-- Witness for C10 (amended): a write containing text, tabs and a vertical
tab emits nothing. -/
theorem C10_write_emits_nothing_witness :
    (∀ c ∈ [97, 9, 98, 11, 99, 32], c ≠ 10 ∧ c ≠ 12 ∧ c ≠ 13)
    ∧ (write (newWriter 0 8 1 32 0) [97, 9, 98, 11, 99, 32]).1 = [] :=
  ⟨by decide, C10_write_emits_nothing (newWriter 0 8 1 32 0) [97, 9, 98, 11, 99, 32] (by decide)⟩

/-! ## C5 -/

/-- C5: `writeCell` emits exactly: the text alone when the padding is zero
or the cell is terminal in a non-right-aligned column; the text followed by
`⌈padding / tabwidth⌉` tab characters when the pad character is tab (the
multiplier `k` is characterized by `p ≤ tabwidth·k < p + tabwidth`); for a
right-aligned column with a non-tab pad character, `padding - 1` pad bytes,
the text, and exactly one trailing pad byte iff the cell is not terminal;
otherwise the text followed by `padding` pad bytes. -/
theorem C5_writeCell (w : Writer) (text : List Nat) (p : Int) (f : Format) (t : Bool) :
    (p = 0 ∨ (t = true ∧ f.flags &&& 1 = 0) → writeCell w text p f t = text)
    ∧ (p ≠ 0 → ¬(t = true ∧ f.flags &&& 1 = 0) → w.config.padchar = 9 →
        writeCell w text p f t
          = text ++ List.replicate ((p + w.config.tabwidth - 1).tdiv w.config.tabwidth).toNat 9
        ∧ (0 < p → 0 < w.config.tabwidth →
            p ≤ w.config.tabwidth * ((p + w.config.tabwidth - 1).tdiv w.config.tabwidth)
            ∧ w.config.tabwidth * ((p + w.config.tabwidth - 1).tdiv w.config.tabwidth)
                < p + w.config.tabwidth))
    ∧ (p ≠ 0 → w.config.padchar ≠ 9 → f.flags &&& 1 ≠ 0 →
        writeCell w text p f t
          = List.replicate (p - 1).toNat w.config.padchar ++ text
            ++ (if t then [] else [w.config.padchar]))
    ∧ (p ≠ 0 → t = false → w.config.padchar ≠ 9 → f.flags &&& 1 = 0 →
        writeCell w text p f t = text ++ List.replicate p.toNat w.config.padchar) := by
  refine ⟨?_, ?_, ?_, ?_⟩
  · intro h
    rw [writeCell, if_pos h]
  · intro hp ht hpad
    constructor
    · rw [writeCell, if_neg (by tauto), if_pos hpad, padRep, hpad]
    · intro hpos htw
      have hnn : (0:Int) ≤ p + w.config.tabwidth - 1 := by omega
      have hid := Int.tdiv_add_tmod (p + w.config.tabwidth - 1) w.config.tabwidth
      have hlo := Int.tmod_nonneg w.config.tabwidth hnn
      have hhi := Int.tmod_lt_of_pos (p + w.config.tabwidth - 1) htw
      omega
  · intro hp hpad hr
    have hterm : ¬(t = true ∧ f.flags &&& 1 = 0) := by tauto
    rw [writeCell, if_neg (by tauto), if_neg hpad, if_pos hr]
    cases t
    · simp [padRep]
    · simp [padRep]
  · intro hp ht hpad hl
    rw [writeCell, if_neg (by rw [ht]; tauto), if_neg hpad, if_neg (by tauto), padRep]

/-- Witness for C5: tab padding of width 5 with tab width 4 emits two tab
characters after the text. -/
theorem C5_writeCell_witness :
    writeCell (newWriter 0 4 1 9 0) [97] 5 ⟨0, 1, 0⟩ false
      = [97] ++ List.replicate (((5:Int) + 4 - 1).tdiv 4).toNat 9
    ∧ (5:Int) ≤ 4 * (((5:Int) + 4 - 1).tdiv 4)
    ∧ (4:Int) * (((5:Int) + 4 - 1).tdiv 4) < 5 + 4 := by
  have h := (C5_writeCell (newWriter 0 4 1 9 0) [97] 5 ⟨0, 1, 0⟩ false).2.1
    (by decide) (by simp) rfl
  exact ⟨h.1, (h.2 (by decide) (by decide)).1, (h.2 (by decide) (by decide)).2⟩

/-! ## C2 -/

/-- C2 counterexample: the claim says the candidate maxwidth is maxed
against the previous row's cell at the same column "including its last".
After writing `"wwww\nx\t"` (minwidth 0, padding 1), the previous row's
cell at column 0 is its last and has maxwidth 5, yet the new cell's
maxwidth is `max(0, 1+1) = 2`, not `max(2, 5) = 5`: the source guards the
max with `col < len(prev.cells)-1`, which excludes the previous row's last
cell. -/
theorem C2_downward_pass_cex :
    (((write (newWriter 0 8 1 32 0) [119, 119, 119, 119, 10, 120, 9]).2.lines.getD 1
        emptyLine).cells.getD 0 emptyCell).maxwidth = 2
    ∧ (((write (newWriter 0 8 1 32 0) [119, 119, 119, 119, 10, 120, 9]).2.lines.getD 0
        emptyLine).cells.getD 0 emptyCell).maxwidth = 5
    ∧ ¬ ((2:Int) = max (max 0 (1 + 1)) 5) := by
  refine ⟨by decide, by decide, by decide⟩

/-- C2 (amended): when a cell is finalized into a row (the non-empty case of
`addCellToLine`), it is appended with
`maxwidth = max(minwidth, width + padding)`, further maxed against the
previous row's cell at the same column index only when that index is
strictly before the previous row's last cell (`col + 1 < len(prev.cells)`);
a cell at the previous row's last column index is not consulted.  Nothing is
emitted and the working cell is cleared. -/
theorem C2_downward_pass (w : Writer) (t : Bool)
    (h : ¬ (t = true ∧ w.cell.size = 0)) :
    (addCellToLine w t).1 = []
    ∧ (addCellToLine w t).2.cell = emptyCell
    ∧ (addCellToLine w t).2.lines =
        updateLastLine (fun l => { l with cells := l.cells ++
          [{ size := w.cell.size,
             width := (runeCount (w.buf.drop (w.buf.length - w.cell.size)) : Int),
             maxwidth :=
               (if 1 < w.lines.length
                   ∧ (lastLine w).cells.length + 1
                       < (w.lines.getD (w.lines.length - 2) emptyLine).cells.length
                then max
                  (max (getFormat w (lastLine w).cells.length).minwidth
                    ((runeCount (w.buf.drop (w.buf.length - w.cell.size)) : Int)
                      + (getFormat w (lastLine w).cells.length).padding))
                  (((w.lines.getD (w.lines.length - 2) emptyLine).cells.getD
                      (lastLine w).cells.length emptyCell).maxwidth)
                else max (getFormat w (lastLine w).cells.length).minwidth
                  ((runeCount (w.buf.drop (w.buf.length - w.cell.size)) : Int)
                    + (getFormat w (lastLine w).cells.length).padding)),
             term := t }] }) w.lines := by
  refine ⟨?_, ?_, ?_⟩
  · unfold addCellToLine
    rw [if_neg h]
  · unfold addCellToLine
    rw [if_neg h]
  · unfold addCellToLine
    rw [if_neg h]
    dsimp only
    have hiff : (1 < w.lines.length
        ∧ (lastLine w).cells.length
            < (w.lines.getD (w.lines.length - 2) emptyLine).cells.length - 1)
      ↔ (1 < w.lines.length
        ∧ (lastLine w).cells.length + 1
            < (w.lines.getD (w.lines.length - 2) emptyLine).cells.length) := by
      omega
    rw [if_congr hiff rfl rfl]

/-- Witness for C2 (amended): finalizing the one-byte cell `"x"` after the
row `"wwww"` appends a cell with maxwidth 2 (the previous row's only cell
is its last, so it is not consulted). -/
theorem C2_downward_pass_witness :
    ¬ (false = true ∧ (write (newWriter 0 8 1 32 0) [119, 119, 119, 119, 10, 120]).2.cell.size = 0)
    ∧ (addCellToLine (write (newWriter 0 8 1 32 0) [119, 119, 119, 119, 10, 120]).2 false).1 = []
    ∧ (addCellToLine (write (newWriter 0 8 1 32 0) [119, 119, 119, 119, 10, 120]).2 false).2.cell
        = emptyCell :=
  ⟨by decide,
   (C2_downward_pass (write (newWriter 0 8 1 32 0) [119, 119, 119, 119, 10, 120]).2 false
     (by decide)).1,
   (C2_downward_pass (write (newWriter 0 8 1 32 0) [119, 119, 119, 119, 10, 120]).2 false
     (by decide)).2.1⟩

/-! ## C7 -/

/-- C7: a row terminator (`'\n'`) arriving while the in-progress cell is
empty and the writer is not in description mode: if the current row already
has cells, its last cell is marked terminal and no empty cell is appended
(nothing is emitted); if the current row has no cells, the buffered rows
are flushed immediately (the eager flush), the writer is reset, and the
terminator's usual new-line bookkeeping still runs.  Neither case is an
error (the model has no failure path). -/
theorem C7_empty_cell_terminator (w : Writer) (hcell : w.cell = emptyCell)
    (hmode : w.addCell = AddCellMode.toLine) :
    ((lastLine w).cells ≠ [] →
      write w [10] = ([], addNewLine { w with
        lines := updateLastLine (fun l => { l with cells := setLastTerm l.cells }) w.lines }))
    ∧ ((lastLine w).cells = [] →
      write w [10] = ((flushAux w).1, addNewLine (reset w))) := by
  have hsize : w.cell.size = 0 := by rw [hcell]; rfl
  have hW : addTextToCell w [] = w := addTextToCell_nil w
  constructor
  · intro hne
    show writeLoop w [] [10] = _
    unfold writeLoop
    rw [if_neg (by decide), if_pos rfl]
    dsimp only
    rw [hW]
    unfold dispatchAddCell
    rw [hmode]
    unfold addCellToLine
    rw [if_pos ⟨rfl, hsize⟩, if_neg (by simpa using hne)]
    dsimp only
    unfold writeLoop
    rw [addTextToCell_nil]
    unfold addNewLine
    rw [hcell]
    rfl
  · intro he
    show writeLoop w [] [10] = _
    unfold writeLoop
    rw [if_neg (by decide), if_pos rfl]
    dsimp only
    rw [hW]
    unfold dispatchAddCell
    rw [hmode]
    unfold addCellToLine
    rw [if_pos ⟨rfl, hsize⟩, if_pos (by simpa using he)]
    dsimp only
    unfold writeLoop
    rw [addTextToCell_nil]
    have hC : { w.cell with
        width := (runeCount (w.buf.drop (w.buf.length - w.cell.size)) : Int) } = emptyCell := by
      rw [hcell]
      simp [emptyCell, List.drop_length, runeCount]
    rw [hC, ← hcell]
    have hwz : { w with cell := w.cell } = w := rfl
    rw [hwz, hcell]
    have hres : { (flushAux w).2 with cell := emptyCell } = reset w := rfl
    rw [hres]
    simp

/-- Witness for C7: after writing `"a\t"` the working cell is empty and the
row has one cell; a `'\n'` marks that cell terminal and emits nothing. -/
theorem C7_empty_cell_terminator_witness :
    write (write (newWriter 0 8 1 32 0) [97, 9]).2 [10]
      = ([], addNewLine { (write (newWriter 0 8 1 32 0) [97, 9]).2 with
          lines := updateLastLine (fun l => { l with cells := setLastTerm l.cells })
            (write (newWriter 0 8 1 32 0) [97, 9]).2.lines }) :=
  (C7_empty_cell_terminator (write (newWriter 0 8 1 32 0) [97, 9]).2
    (by decide) (by decide)).1 (by decide)

/-! ## C8 -/

/-- C8: idempotent flush-replay.  Starting from any state in which a flush
has just completed, running a write-then-flush cycle on an input and then
running the identical cycle again produces the identical output (and the
identical final state): flush always ends by resetting all buffered state
while preserving the configuration, so the second cycle starts from exactly
the state the first one started from. -/
theorem C8_flush_replay (w : Writer) (s : List Nat) :
    cycle ((cycle ((flush w).2) s).2) s = cycle ((flush w).2) s := by
  have h1 : (cycle ((flush w).2) s).2 = (flush w).2 := by
    rw [cycle_snd, flush_snd]
    rfl
  rw [h1]

/-! ## Width-propagation helper lemmas -/

theorem tabifyCell_ge (tw : Int) (htw : 0 < tw) (c : Cell) :
    c.maxwidth ≤ (tabifyCell tw c).maxwidth := by
  unfold tabifyCell
  dsimp only
  split
  · show c.maxwidth ≤ c.maxwidth + (tw - c.maxwidth.tmod tw)
    have := Int.tmod_lt_of_pos c.maxwidth htw
    omega
  · exact le_refl _

theorem tabifyCell_tmod (tw : Int) (c : Cell) :
    ((tabifyCell tw c).maxwidth).tmod tw = 0 := by
  unfold tabifyCell
  dsimp only
  split
  · show (c.maxwidth + (tw - c.maxwidth.tmod tw)).tmod tw = 0
    have hid := Int.tdiv_add_tmod c.maxwidth tw
    have h2 : c.maxwidth + (tw - c.maxwidth.tmod tw) = tw * (c.maxwidth.tdiv tw + 1) := by
      linear_combination -hid
    rw [h2, Int.mul_tmod_right]
  · next h =>
    simpa using h

theorem tabifyCell_fix (tw : Int) (c : Cell) (h : c.maxwidth.tmod tw = 0) :
    tabifyCell tw c = c := by
  unfold tabifyCell
  rw [if_neg (by simpa using h)]

theorem getD_map_cell (f : Cell → Cell) (l : List Cell) (j : Nat) (hj : j < l.length) :
    (l.map f).getD j emptyCell = f (l.getD j emptyCell) := by
  rw [List.getD_eq_getElem?_getD, List.getD_eq_getElem?_getD, List.getElem?_map,
      List.getElem?_eq_getElem hj]
  rfl

theorem getD_default_of_le {α : Type} (l : List α) (j : Nat) (d : α) (hj : l.length ≤ j) :
    l.getD j d = d := by
  rw [List.getD_eq_getElem?_getD, List.getElem?_eq_none_iff.mpr hj]
  rfl

theorem tabifyLine_cells_length (w : Writer) (l : Line) :
    (tabifyLine w l).cells.length = l.cells.length := by
  simp [tabifyLine]

theorem tabifyLine_getD_tmod (w : Writer) (l : Line) (j : Nat) :
    (((tabifyLine w l).cells.getD j emptyCell).maxwidth).tmod w.config.tabwidth = 0 := by
  by_cases hj : j < l.cells.length
  · rw [show (tabifyLine w l).cells = l.cells.map (tabifyCell w.config.tabwidth) from rfl,
        getD_map_cell _ _ _ hj]
    exact tabifyCell_tmod _ _
  · rw [getD_default_of_le _ j _ (le_of_eq_of_le (tabifyLine_cells_length w l) (by omega))]
    exact Int.zero_tmod _

theorem tabifyLineIf_cells_length (w : Writer) (l : Line) :
    (tabifyLineIf w l).cells.length = l.cells.length := by
  unfold tabifyLineIf
  split
  · exact tabifyLine_cells_length w l
  · rfl

theorem tabifyLineIf_ge (w : Writer) (htw : 0 < w.config.tabwidth) (l : Line) (j : Nat) :
    (l.cells.getD j emptyCell).maxwidth ≤ ((tabifyLineIf w l).cells.getD j emptyCell).maxwidth := by
  unfold tabifyLineIf
  split
  · by_cases hj : j < l.cells.length
    · rw [show (tabifyLine w l).cells = l.cells.map (tabifyCell w.config.tabwidth) from rfl,
          getD_map_cell _ _ _ hj]
      exact tabifyCell_ge _ htw _
    · rw [getD_default_of_le l.cells j _ (by omega),
          getD_default_of_le (tabifyLine w l).cells j _
            (le_of_eq_of_le (tabifyLine_cells_length w l) (by omega))]
  · exact le_refl _

theorem mergeCells_length (ps : List Cell) :
    ∀ (cs : List Cell) (jc : Nat), (mergeCells ps cs jc).length = ps.length := by
  induction ps with
  | nil => intro cs jc; rfl
  | cons p ps ih =>
    intro cs jc
    show (mergeCells (p :: ps) cs jc).length = ps.length + 1
    unfold mergeCells
    rw [List.length_cons, ih]

theorem mergeCells_getD_lt (ps : List Cell) :
    ∀ (cs : List Cell) (jc j : Nat), j < jc → j < cs.length → j < ps.length →
    (mergeCells ps cs jc).getD j emptyCell =
      { ps.getD j emptyCell with
        maxwidth := max (ps.getD j emptyCell).maxwidth ((cs.getD j emptyCell).maxwidth) } := by
  induction ps with
  | nil => intro cs jc j _ _ hp; exact absurd hp (by simp)
  | cons p ps ih =>
    intro cs jc j hj hc hp
    unfold mergeCells
    match j with
    | 0 =>
      match cs with
      | [] => exact absurd hc (by simp)
      | c :: cs' =>
        rw [if_pos hj]
        rfl
    | Nat.succ k =>
      rw [List.getD_cons_succ, List.getD_cons_succ]
      have hrec := ih cs.tail (jc - 1) k (by omega) ?_ (by simpa using hp)
      · rw [hrec]
        match cs with
        | [] => exact absurd hc (by simp)
        | c :: cs' => rfl
      · match cs with
        | [] => exact absurd hc (by simp)
        | c :: cs' => simp at hc ⊢; omega

theorem mergeCells_getD_ge (ps : List Cell) :
    ∀ (cs : List Cell) (jc j : Nat), jc ≤ j →
    (mergeCells ps cs jc).getD j emptyCell = ps.getD j emptyCell := by
  induction ps with
  | nil => intro cs jc j _; rfl
  | cons p ps ih =>
    intro cs jc j hj
    unfold mergeCells
    match j with
    | 0 =>
      rw [if_neg (by omega)]
      rfl
    | Nat.succ k =>
      rw [List.getD_cons_succ, List.getD_cons_succ]
      exact ih cs.tail (jc - 1) k (by omega)

theorem mergeInto_cells_length (p c : Line) :
    (mergeInto p c).cells.length = p.cells.length := by
  unfold mergeInto
  exact mergeCells_length _ _ _

theorem mergeInto_getD_lt (p c : Line) (j : Nat)
    (hj1 : j + 1 < p.cells.length) (hj2 : j + 1 < c.cells.length) :
    (mergeInto p c).cells.getD j emptyCell =
      { p.cells.getD j emptyCell with
        maxwidth := max (p.cells.getD j emptyCell).maxwidth
          ((c.cells.getD j emptyCell).maxwidth) } := by
  unfold mergeInto
  exact mergeCells_getD_lt _ _ _ _ (by omega) (by omega) (by omega)

theorem mergeInto_getD_ge (p c : Line) (j : Nat)
    (h : ¬(j + 1 < p.cells.length ∧ j + 1 < c.cells.length)) :
    (mergeInto p c).cells.getD j emptyCell = p.cells.getD j emptyCell := by
  unfold mergeInto
  exact mergeCells_getD_ge _ _ _ _ (by omega)

theorem propagate_cons_cons (w : Writer) (l0 l1 : Line) (t : List Line) :
    propagate w (l0 :: l1 :: t) =
      mergeInto l0 (tabifyLineIf w ((propagate w (l1 :: t)).headD emptyLine))
        :: tabifyLineIf w ((propagate w (l1 :: t)).headD emptyLine)
        :: (propagate w (l1 :: t)).tail := by
  rw [propagate]

theorem propagate_cons_exists (w : Writer) (l : Line) (t : List Line) :
    ∃ r0 rt, propagate w (l :: t) = r0 :: rt := by
  cases t with
  | nil => exact ⟨l, [], rfl⟩
  | cons l1 t' =>
    rw [propagate_cons_cons]
    exact ⟨_, _, rfl⟩

theorem propagate_cells_length (w : Writer) :
    ∀ (ls : List Line) (i : Nat),
      (((propagate w ls).getD i emptyLine).cells.length) = ((ls.getD i emptyLine).cells.length) := by
  intro ls
  induction ls with
  | nil => intro i; rfl
  | cons l0 t ih =>
    cases t with
    | nil =>
      intro i
      match i with
      | 0 => rfl
      | Nat.succ k => rfl
    | cons l1 t' =>
      intro i
      obtain ⟨r0, rt, hr⟩ := propagate_cons_exists w l1 t'
      rw [propagate_cons_cons, hr]
      simp only [List.headD_cons, List.tail_cons]
      match i with
      | 0 =>
        rw [List.getD_cons_zero, List.getD_cons_zero]
        exact mergeInto_cells_length _ _
      | 1 =>
        rw [List.getD_cons_succ, List.getD_cons_zero, List.getD_cons_succ, List.getD_cons_zero,
            tabifyLineIf_cells_length]
        have h0 := ih 0
        rw [hr] at h0
        exact h0
      | Nat.succ (Nat.succ k) =>
        rw [List.getD_cons_succ, List.getD_cons_succ, List.getD_cons_succ, List.getD_cons_succ]
        have hk := ih (k + 1)
        rw [hr, List.getD_cons_succ, List.getD_cons_succ] at hk
        exact hk

theorem propagate_tail_tmod (w : Writer) (hpad : w.config.padchar = 9) :
    ∀ (ls : List Line) (i j : Nat), 1 ≤ i →
      ((((propagate w ls).getD i emptyLine).cells.getD j emptyCell).maxwidth).tmod
        w.config.tabwidth = 0 := by
  intro ls
  induction ls with
  | nil => intro i j _; exact Int.zero_tmod _
  | cons l0 t ih =>
    cases t with
    | nil =>
      intro i j hi
      match i, hi with
      | 1, _ => exact Int.zero_tmod _
      | Nat.succ (Nat.succ k), _ => exact Int.zero_tmod _
    | cons l1 t' =>
      intro i j hi
      obtain ⟨r0, rt, hr⟩ := propagate_cons_exists w l1 t'
      rw [propagate_cons_cons, hr]
      simp only [List.headD_cons, List.tail_cons]
      match i, hi with
      | 1, _ =>
        rw [List.getD_cons_succ, List.getD_cons_zero]
        unfold tabifyLineIf
        rw [if_pos hpad]
        exact tabifyLine_getD_tmod w r0 j
      | Nat.succ (Nat.succ k), _ =>
        rw [List.getD_cons_succ, List.getD_cons_succ]
        have hk := ih (k + 1) j (by omega)
        rw [hr, List.getD_cons_succ] at hk
        exact hk

theorem propagate_maxwidth_ge (w : Writer) (htw : 0 < w.config.tabwidth) :
    ∀ (ls : List Line) (i j : Nat),
      ((ls.getD i emptyLine).cells.getD j emptyCell).maxwidth
        ≤ (((propagate w ls).getD i emptyLine).cells.getD j emptyCell).maxwidth := by
  intro ls
  induction ls with
  | nil => intro i j; exact le_refl _
  | cons l0 t ih =>
    cases t with
    | nil =>
      intro i j
      exact le_refl _
    | cons l1 t' =>
      intro i j
      obtain ⟨r0, rt, hr⟩ := propagate_cons_exists w l1 t'
      rw [propagate_cons_cons, hr]
      simp only [List.headD_cons, List.tail_cons]
      match i with
      | 0 =>
        rw [List.getD_cons_zero, List.getD_cons_zero]
        by_cases hj : j + 1 < l0.cells.length ∧ j + 1 < (tabifyLineIf w r0).cells.length
        · rw [mergeInto_getD_lt _ _ _ hj.1 hj.2]
          exact le_max_left _ _
        · rw [mergeInto_getD_ge _ _ _ hj]
      | 1 =>
        rw [List.getD_cons_succ, List.getD_cons_zero, List.getD_cons_succ, List.getD_cons_zero]
        have h1 : (l1.cells.getD j emptyCell).maxwidth ≤ (r0.cells.getD j emptyCell).maxwidth := by
          have := ih 0 j
          rw [hr] at this
          exact this
        exact le_trans h1 (tabifyLineIf_ge w htw r0 j)
      | Nat.succ (Nat.succ k) =>
        rw [List.getD_cons_succ, List.getD_cons_succ, List.getD_cons_succ, List.getD_cons_succ]
        have hk := ih (k + 1) j
        rw [hr, List.getD_cons_succ] at hk
        exact hk

/-! ## C4 -/

/-- C4 counterexample: the claim says every cell of every buffered row —
including the first row — has its maxwidth rounded to a multiple of the tab
width when the pad character is tab.  But the `Flush` adjustment loop runs
only for line indices `i > 0`, so the first buffered row is never
tab-rounded: flushing the single row `"abc\n"` with padchar `'\t'` and tab
width 8 leaves its cell's maxwidth at 4, and `4 mod 8 ≠ 0`. -/
theorem C4_tab_rounding_cex :
    (((flushLines (write (newWriter 0 8 1 9 0) [97, 98, 99, 10]).2).getD 0
        emptyLine).cells.getD 0 emptyCell).maxwidth = 4
    ∧ ¬ ((4:Int).tmod 8 = 0) := by
  exact ⟨by decide, by decide⟩

/-- C4 (amended): when the pad character is tab, every buffered row except
the first — i.e. every row with index `i ≥ 1` — has each cell's resolved
maxwidth an exact multiple of the configured tab width after the flush
adjustment pass; the first row's maxwidths are only updated by upward
propagation and need not be multiples. -/
theorem C4_tab_rounding (w : Writer) (ls : List Line) (i j : Nat)
    (hpad : w.config.padchar = 9) (hi : 1 ≤ i) :
    ((((propagate w ls).getD i emptyLine).cells.getD j emptyCell).maxwidth).tmod
      w.config.tabwidth = 0 :=
  propagate_tail_tmod w hpad ls i j hi

/-- Witness for C4 (amended): two rows with padchar tab; the second row's
cell is rounded to 8. -/
theorem C4_tab_rounding_witness :
    (write (newWriter 0 8 1 9 0) [97, 98, 99, 10, 100, 101, 102, 103, 104, 10]).2.config.padchar = 9
    ∧ ((((flushLines (write (newWriter 0 8 1 9 0)
          [97, 98, 99, 10, 100, 101, 102, 103, 104, 10]).2).getD 1
          emptyLine).cells.getD 0 emptyCell).maxwidth).tmod
        (write (newWriter 0 8 1 9 0) [97, 98, 99, 10, 100, 101, 102, 103, 104, 10]).2.config.tabwidth
        = 0 :=
  ⟨by decide,
   C4_tab_rounding (write (newWriter 0 8 1 9 0) [97, 98, 99, 10, 100, 101, 102, 103, 104, 10]).2
     (stripLastEmpty (write (newWriter 0 8 1 9 0)
       [97, 98, 99, 10, 100, 101, 102, 103, 104, 10]).2.lines) 1 0 (by decide) (by decide)⟩

/-! ## C3 -/

/-- C3 counterexample: the claim says the upward pass maxes the earlier
row's cell for *each* column index present in both adjacent rows.  Flushing
`"aa\tbb\nx\tyyyy\n"` gives two rows that share column 1, but column 1 is
the last cell of both rows and the loop bound `min(len(prev)-1,
len(curr)-1)` skips it: the first row's cell keeps maxwidth 3 instead of
`max(3, 5) = 5`. -/
theorem C3_upward_pass_cex :
    (((flushLines (write (newWriter 0 8 1 32 0)
        [97, 97, 9, 98, 98, 10, 120, 9, 121, 121, 121, 121, 10]).2).getD 0
        emptyLine).cells.getD 1 emptyCell).maxwidth = 3
    ∧ (((flushLines (write (newWriter 0 8 1 32 0)
        [97, 97, 9, 98, 98, 10, 120, 9, 121, 121, 121, 121, 10]).2).getD 1
        emptyLine).cells.getD 1 emptyCell).maxwidth = 5
    ∧ ¬ ((3:Int) = max 3 5) := by
  exact ⟨by decide, by decide, by decide⟩

theorem tabifyLineIf_of_ne (w : Writer) (h : ¬ w.config.padchar = 9) (l : Line) :
    tabifyLineIf w l = l := by
  unfold tabifyLineIf
  rw [if_neg h]

/-- C3 (amended): during flush (with a non-tab pad character, so that tab
rounding does not intervene), rows are processed from last to first and, for
each pair of adjacent rows, the earlier row's cell at column `j` is set to
`max(its maxwidth, the later row's propagated maxwidth at j)` exactly for
the column indices `j` at which **both** rows have a cell that is not the
last cell of its row (`j + 1 < len(cells)` on both sides); at any other
column index the earlier row's cell is left unchanged, and the last row is
left unchanged entirely. -/
theorem C3_upward_pass (w : Writer) (hpc : ¬ w.config.padchar = 9) :
    ∀ (ls : List Line) (i j : Nat),
      (i + 1 < ls.length →
        j + 1 < (ls.getD i emptyLine).cells.length →
        j + 1 < (ls.getD (i+1) emptyLine).cells.length →
        (((propagate w ls).getD i emptyLine).cells.getD j emptyCell).maxwidth
          = max ((ls.getD i emptyLine).cells.getD j emptyCell).maxwidth
              (((propagate w ls).getD (i+1) emptyLine).cells.getD j emptyCell).maxwidth)
      ∧ (i + 1 < ls.length →
        ¬(j + 1 < (ls.getD i emptyLine).cells.length
          ∧ j + 1 < (ls.getD (i+1) emptyLine).cells.length) →
        ((propagate w ls).getD i emptyLine).cells.getD j emptyCell
          = (ls.getD i emptyLine).cells.getD j emptyCell)
      ∧ (i + 1 = ls.length → (propagate w ls).getD i emptyLine = ls.getD i emptyLine) := by
  intro ls
  induction ls with
  | nil =>
    intro i j
    refine ⟨?_, ?_, ?_⟩
    · intro h; simp at h
    · intro h; simp at h
    · intro h; simp at h
  | cons l0 t ih =>
    cases t with
    | nil =>
      intro i j
      refine ⟨?_, ?_, ?_⟩
      · intro h; simp at h
      · intro h; simp at h
      · intro h
        have hi : i = 0 := by simp at h; omega
        subst hi
        rfl
    | cons l1 t' =>
      intro i j
      obtain ⟨r0, rt, hr⟩ := propagate_cons_exists w l1 t'
      have hres : propagate w (l0 :: l1 :: t') = mergeInto l0 r0 :: r0 :: rt := by
        rw [propagate_cons_cons, hr]
        simp only [List.headD_cons, List.tail_cons, tabifyLineIf_of_ne w hpc]
      have hlen0 : r0.cells.length = l1.cells.length := by
        have h0 := propagate_cells_length w (l1 :: t') 0
        rw [hr] at h0
        exact h0
      refine ⟨?_, ?_, ?_⟩
      · intro hi hj1 hj2
        match i with
        | 0 =>
          rw [hres]
          simp only [List.getD_cons_zero, List.getD_cons_succ] at hj1 hj2 ⊢
          rw [mergeInto_getD_lt l0 r0 j hj1 (by omega)]
        | Nat.succ k =>
          rw [hres]
          simp only [List.getD_cons_succ] at hj1 hj2 ⊢
          have hk := (ih k j).1 (by simpa using hi) hj1 hj2
          rw [hr] at hk
          exact hk
      · intro hi hj
        match i with
        | 0 =>
          rw [hres]
          simp only [List.getD_cons_zero, List.getD_cons_succ] at hj ⊢
          exact mergeInto_getD_ge l0 r0 j (by omega)
        | Nat.succ k =>
          rw [hres]
          simp only [List.getD_cons_succ] at hj ⊢
          have hk := (ih k j).2.1 (by simpa using hi) hj
          rw [hr] at hk
          exact hk
      · intro hi
        match i with
        | Nat.succ k =>
          rw [hres]
          simp only [List.getD_cons_succ]
          have hk := (ih k j).2.2 (by simpa using hi)
          rw [hr] at hk
          exact hk

/-- Witness for C3 (amended): on the two 2-cell rows of
`"aa\tbb\nx\tyyyy\n"`, column 0 (non-last in both rows) is maxed across the
pair. -/
theorem C3_upward_pass_witness :
    ¬ (write (newWriter 0 8 1 32 0)
        [97, 97, 9, 98, 98, 10, 120, 9, 121, 121, 121, 121, 10]).2.config.padchar = 9
    ∧ (((flushLines (write (newWriter 0 8 1 32 0)
          [97, 97, 9, 98, 98, 10, 120, 9, 121, 121, 121, 121, 10]).2).getD 0
          emptyLine).cells.getD 0 emptyCell).maxwidth
        = max (((stripLastEmpty (write (newWriter 0 8 1 32 0)
            [97, 97, 9, 98, 98, 10, 120, 9, 121, 121, 121, 121, 10]).2.lines).getD 0
            emptyLine).cells.getD 0 emptyCell).maxwidth
            (((flushLines (write (newWriter 0 8 1 32 0)
              [97, 97, 9, 98, 98, 10, 120, 9, 121, 121, 121, 121, 10]).2).getD 1
              emptyLine).cells.getD 0 emptyCell).maxwidth :=
  ⟨by decide,
   (C3_upward_pass (write (newWriter 0 8 1 32 0)
      [97, 97, 9, 98, 98, 10, 120, 9, 121, 121, 121, 121, 10]).2 (by decide)
      (stripLastEmpty (write (newWriter 0 8 1 32 0)
        [97, 97, 9, 98, 98, 10, 120, 9, 121, 121, 121, 121, 10]).2.lines) 0 0).1
     (by decide) (by decide) (by decide)⟩

/-! ## C1 -/

/-- The downward-accumulation property `addCellToLine` establishes while
rows are buffered: each row's cell at a column index that is not the last
index of that row has maxwidth no larger than the next row's cell at the
same index (when the next row has one).  Stated over `getD` so that it is
decidable on concrete line lists. -/
abbrev downwardAccumulated (ls : List Line) : Prop :=
  ∀ i, i < ls.length - 1 → ∀ j, j < (ls.getD i emptyLine).cells.length - 1 →
    (j < (ls.getD (i+1) emptyLine).cells.length →
      ((ls.getD i emptyLine).cells.getD j emptyCell).maxwidth
        ≤ ((ls.getD (i+1) emptyLine).cells.getD j emptyCell).maxwidth)

theorem downwardAccumulated_tail (l0 : Line) (t : List Line)
    (hd : downwardAccumulated (l0 :: t)) : downwardAccumulated t := by
  intro i hi j hj1 hj2
  have := hd (i + 1) (by simp; omega) j (by simpa using hj1) (by simpa using hj2)
  simpa using this

theorem propagate_adjacent_eq (w : Writer) (htw : 0 < w.config.tabwidth) :
    ∀ (ls : List Line), downwardAccumulated ls → ∀ (i j : Nat),
      i + 1 < ls.length →
      j + 1 < (ls.getD i emptyLine).cells.length →
      j + 1 < (ls.getD (i+1) emptyLine).cells.length →
      (((propagate w ls).getD i emptyLine).cells.getD j emptyCell).maxwidth
        = (((propagate w ls).getD (i+1) emptyLine).cells.getD j emptyCell).maxwidth := by
  intro ls
  induction ls with
  | nil =>
    intro _ i j hi
    simp at hi
  | cons l0 t ih =>
    cases t with
    | nil =>
      intro _ i j hi
      simp at hi
    | cons l1 t' =>
      intro hd i j hi hj1 hj2
      obtain ⟨r0, rt, hr⟩ := propagate_cons_exists w l1 t'
      have hres : propagate w (l0 :: l1 :: t')
          = mergeInto l0 (tabifyLineIf w r0) :: tabifyLineIf w r0 :: rt := by
        rw [propagate_cons_cons, hr]
        simp only [List.headD_cons, List.tail_cons]
      have hlen0 : r0.cells.length = l1.cells.length := by
        have h0 := propagate_cells_length w (l1 :: t') 0
        rw [hr] at h0
        exact h0
      have htail := downwardAccumulated_tail l0 (l1 :: t') hd
      match i with
      | 0 =>
        rw [hres]
        simp only [List.getD_cons_zero, List.getD_cons_succ] at hj1 hj2 ⊢
        have hjtb : j + 1 < (tabifyLineIf w r0).cells.length := by
          rw [tabifyLineIf_cells_length]
          omega
        rw [mergeInto_getD_lt l0 (tabifyLineIf w r0) j hj1 hjtb]
        show max _ _ = _
        refine max_eq_right ?_
        have h1 : ((l0.cells.getD j emptyCell).maxwidth)
            ≤ ((l1.cells.getD j emptyCell).maxwidth) := by
          have := hd 0 (by simp) j (by simpa using (by omega : j < l0.cells.length - 1))
            (by simpa using (by omega : j < l1.cells.length))
          simpa using this
        have h2 : ((l1.cells.getD j emptyCell).maxwidth)
            ≤ ((r0.cells.getD j emptyCell).maxwidth) := by
          have := propagate_maxwidth_ge w htw (l1 :: t') 0 j
          rw [hr] at this
          simpa using this
        exact le_trans (le_trans h1 h2) (tabifyLineIf_ge w htw r0 j)
      | 1 =>
        rw [hres]
        simp only [List.getD_cons_succ, List.getD_cons_zero] at hj1 hj2 ⊢
        have hih := ih htail 0 j (by simpa using hi) (by simpa using hj1) (by simpa using hj2)
        rw [hr] at hih
        simp only [List.getD_cons_zero, List.getD_cons_succ] at hih
        rw [← hih]
        unfold tabifyLineIf
        split
        · next hpad =>
          have hj0 : j < r0.cells.length := by omega
          rw [show (tabifyLine w r0).cells = r0.cells.map (tabifyCell w.config.tabwidth) from rfl,
              getD_map_cell _ _ _ hj0]
          have htm : ((r0.cells.getD j emptyCell).maxwidth).tmod w.config.tabwidth = 0 := by
            have := propagate_tail_tmod w hpad (l1 :: t') 1 j (by omega)
            rw [hr] at this
            simp only [List.getD_cons_succ, List.getD_cons_zero] at this
            rw [hih]
            exact this
          rw [tabifyCell_fix _ _ htm]
        · rfl
      | Nat.succ (Nat.succ k) =>
        rw [hres]
        simp only [List.getD_cons_succ] at hj1 hj2 ⊢
        have hih := ih htail (k + 1) j (by simpa using hi) (by simpa using hj1)
          (by simpa using hj2)
        rw [hr] at hih
        simp only [List.getD_cons_succ] at hih
        exact hih

/-- C1 (amended): at flush, after the adjustment pass, for any two
**adjacent** buffered rows and any column index `j` at which both rows have
a cell that is not the last cell of its row, the two cells' resolved
maxwidths are equal (so the equality chains across any run of consecutive
such rows); every cell's resolved maxwidth is at least its buffered value,
hence at least `max(minwidth, width + padding)` whenever the buffered value
satisfied that bound (which the downward pass guarantees).  The hypothesis
`downwardAccumulated` is the invariant the downward pass establishes.
Column indices that are the last cell of one of the rows, or columns
interrupted by a shorter row in between, are excluded — the original
claim's unrestricted form is refuted by `C1_column_alignment_cex`. -/
theorem C1_column_alignment (w : Writer) (ls : List Line)
    (htw : 0 < w.config.tabwidth) (hd : downwardAccumulated ls) (i j : Nat) :
    (i + 1 < ls.length →
      j + 1 < (ls.getD i emptyLine).cells.length →
      j + 1 < (ls.getD (i+1) emptyLine).cells.length →
      (((propagate w ls).getD i emptyLine).cells.getD j emptyCell).maxwidth
        = (((propagate w ls).getD (i+1) emptyLine).cells.getD j emptyCell).maxwidth)
    ∧ ((ls.getD i emptyLine).cells.getD j emptyCell).maxwidth
        ≤ (((propagate w ls).getD i emptyLine).cells.getD j emptyCell).maxwidth
    ∧ (max (getFormat w j).minwidth
          (((ls.getD i emptyLine).cells.getD j emptyCell).width + (getFormat w j).padding)
        ≤ ((ls.getD i emptyLine).cells.getD j emptyCell).maxwidth →
       max (getFormat w j).minwidth
          (((ls.getD i emptyLine).cells.getD j emptyCell).width + (getFormat w j).padding)
        ≤ (((propagate w ls).getD i emptyLine).cells.getD j emptyCell).maxwidth) :=
  ⟨fun hi hj1 hj2 => propagate_adjacent_eq w htw ls hd i j hi hj1 hj2,
   propagate_maxwidth_ge w htw ls i j,
   fun h => le_trans h (propagate_maxwidth_ge w htw ls i j)⟩

/-- C1 counterexample: flushing `"aa\tbbb\nx\tyyyyy\n"` leaves column 1 —
present in both rows — with resolved maxwidths 4 (row 0) and 6 (row 1): the
cells of a shared column do not all have one resolved maxwidth, because the
column is the last cell of each row and both passes skip last cells. -/
theorem C1_column_alignment_cex :
    (((flushLines (write (newWriter 0 8 1 32 0)
        [97, 97, 9, 98, 98, 98, 10, 120, 9, 121, 121, 121, 121, 121, 10]).2).getD 0
        emptyLine).cells.getD 1 emptyCell).maxwidth = 4
    ∧ (((flushLines (write (newWriter 0 8 1 32 0)
        [97, 97, 9, 98, 98, 98, 10, 120, 9, 121, 121, 121, 121, 121, 10]).2).getD 1
        emptyLine).cells.getD 1 emptyCell).maxwidth = 6
    ∧ ((4:Int) ≠ 6) := by
  exact ⟨by decide, by decide, by decide⟩

/-- Witness for C1 (amended): the three-cell rows of
`"aa\tbb\tc\nxxx\tb\tcc\n"` satisfy the downward invariant, and columns 0
and 1 (non-last in both rows) have equal resolved maxwidths across the two
rows. -/
theorem C1_column_alignment_witness :
    (0:Int) < (write (newWriter 0 8 1 32 0)
        [97, 97, 9, 98, 98, 9, 99, 10, 120, 120, 120, 9, 98, 9, 99, 99, 10]).2.config.tabwidth
    ∧ downwardAccumulated (stripLastEmpty (write (newWriter 0 8 1 32 0)
        [97, 97, 9, 98, 98, 9, 99, 10, 120, 120, 120, 9, 98, 9, 99, 99, 10]).2.lines)
    ∧ (((flushLines (write (newWriter 0 8 1 32 0)
          [97, 97, 9, 98, 98, 9, 99, 10, 120, 120, 120, 9, 98, 9, 99, 99, 10]).2).getD 0
          emptyLine).cells.getD 1 emptyCell).maxwidth
        = (((flushLines (write (newWriter 0 8 1 32 0)
          [97, 97, 9, 98, 98, 9, 99, 10, 120, 120, 120, 9, 98, 9, 99, 99, 10]).2).getD 1
          emptyLine).cells.getD 1 emptyCell).maxwidth :=
  ⟨by decide, by decide,
   (C1_column_alignment (write (newWriter 0 8 1 32 0)
      [97, 97, 9, 98, 98, 9, 99, 10, 120, 120, 120, 9, 98, 9, 99, 99, 10]).2
      (stripLastEmpty (write (newWriter 0 8 1 32 0)
        [97, 97, 9, 98, 98, 9, 99, 10, 120, 120, 120, 9, 98, 9, 99, 99, 10]).2.lines)
      (by decide) (by decide) 0 1).1 (by decide) (by decide) (by decide)⟩

/-! ## UTF-8 decoding lemmas (for the word-wrap scan) -/

theorem decodeRuneSize_pos (b0 : Nat) (rest : List Nat) :
    1 ≤ decodeRuneSize (b0 :: rest) := by
  rcases rest with _ | ⟨b1, _ | ⟨b2, _ | ⟨b3, r⟩⟩⟩ <;>
    simp only [decodeRuneSize] <;> split_ifs <;> omega

theorem decodeRuneSize_le_length (bs : List Nat) : decodeRuneSize bs ≤ bs.length := by
  rcases bs with _ | ⟨b0, _ | ⟨b1, _ | ⟨b2, _ | ⟨b3, r⟩⟩⟩⟩ <;>
    simp only [decodeRuneSize] <;> (try split_ifs) <;>
    simp only [List.length_cons, List.length_nil] <;> omega

theorem decodeRuneSize_continuation (bs : List Nat) (off : Nat)
    (h1 : 1 ≤ off) (h2 : off < decodeRuneSize bs) :
    0x80 ≤ bs.getD off 0 := by
  rcases bs with _ | ⟨b0, _ | ⟨b1, _ | ⟨b2, _ | ⟨b3, r⟩⟩⟩⟩ <;>
    simp only [decodeRuneSize] at h2 <;>
    first
      | omega
      | (split_ifs at h2 <;>
          first
            | omega
            | (interval_cases off <;>
                simp only [List.getD_cons_succ, List.getD_cons_zero] <;> omega))

theorem getD_drop_nat (l : List Nat) (m n : Nat) :
    (l.drop m).getD n 0 = l.getD (m + n) 0 := by
  rw [List.getD_eq_getElem?_getD, List.getD_eq_getElem?_getD, List.getElem?_drop]

/-- Bytes strictly inside the rune consumed at position `p` are UTF-8
continuation bytes (`≥ 0x80`), hence neither spaces nor carriage returns. -/
theorem skipped_byte_ge (text : List Nat) (p k : Nat) (_hp : p < text.length)
    (h1 : p < k) (h2 : k < p + decodeRuneSize (text.drop p)) :
    0x80 ≤ text.getD k 0 := by
  have hcont := decodeRuneSize_continuation (text.drop p) (k - p) (by omega) (by omega)
  rw [getD_drop_nat] at hcont
  have : p + (k - p) = k := by omega
  rw [this] at hcont
  exact hcont

theorem scanLine_succ (ww : Int) (text : List Nat) (fuel p0 p : Nat) (col : Int)
    (ls : Option Nat) :
    scanLine ww text (fuel + 1) p0 p col ls =
      if text.length ≤ p then (listSlice text p0 p ++ [10], p + 1)
      else if text.getD p 0 = 13 then (listSlice text p0 p ++ [10], p + 1)
      else
        (if col + 1 > ww ∧ (if text.getD p 0 = 32 then some p else ls).isSome then
          (listSlice text p0 ((if text.getD p 0 = 32 then some p else ls).getD 0) ++ [10],
            (if text.getD p 0 = 32 then some p else ls).getD 0 + 1)
        else scanLine ww text fuel p0 (p + decodeRuneSize (text.drop p)) (col + 1)
          (if text.getD p 0 = 32 then some p else ls)) := rfl

theorem stepsFrom_succ (text : List Nat) (fuel p : Nat) :
    stepsFrom text (fuel + 1) p =
      if text.length ≤ p ∨ text.getD p 0 = 13 then 0
      else 1 + stepsFrom text fuel (p + decodeRuneSize (text.drop p)) := rfl

/-! ## C6 -/

/-- C6 counterexample: the claim says that when no space was seen before
the overflow point the line is emitted unbroken.  With wrap column 3 and
indent 0, the description text `"aaaaa b"` overflows at the fourth rune
with no space seen; the scanner keeps going and breaks at the *first space
after* the overflow point, emitting `"aaaaa\nb\n"`, not the unbroken
`"aaaaa b\n"`. -/
theorem C6_word_wrap_cex :
    writeDescription (setDescriptionFormat (newWriter 0 8 1 32 0) 0 3)
        [97, 97, 97, 97, 97, 32, 98]
      = [97, 97, 97, 97, 97, 10, 98, 10]
    ∧ writeDescription (setDescriptionFormat (newWriter 0 8 1 32 0) 0 3)
        [97, 97, 97, 97, 97, 32, 98]
      ≠ [97, 97, 97, 97, 97, 32, 98, 10] := by
  exact ⟨by decide, by decide⟩

/-- C6 (amended): characterization of one segment scan of
`writeDescription` (the inner loop, `scanLine`), for any sufficient fuel
and any state `p0 ≤ p`, running column `col`, and last-space record `ls`
satisfying the scan invariant (`ls` points at the last space seen, with no
later space before `p`, and the column was within the wrap limit when a
space is on record).  The result is exactly one of:

* **unbroken**: the segment is emitted up to the next `'\r'` or the end of
  the text (position `q`), a newline is appended, and scanning resumes at
  `q + 1`; moreover either the scanned range contains no space at all, or
  the final running column `col + stepsFrom … p` (one per rune) stays
  within the wrap column — so a segment that overflows while a space is
  available is never emitted unbroken; or
* **broken at a space**: the emitted text stops exactly at a space position
  `s` (never mid-word), a newline is appended, scanning resumes at `s + 1`,
  and `s` is the last space before the overflow point `pt` (no space lies
  strictly between `s` and `pt`).

This corrects the original claim's "no space before the overflow point ⇒
unbroken": scanning continues past the overflow and still breaks at the
first space found later (see `C6_word_wrap_cex`); a segment is emitted
unbroken only when it fits or contains no space at all. -/
theorem C6_word_wrap (ww : Int) (text : List Nat) :
    ∀ (fuel p0 p : Nat) (col : Int) (ls : Option Nat),
    text.length + 1 ≤ p + fuel →
    p ≤ text.length →
    p0 ≤ p →
    (∀ l, ls = some l → p0 ≤ l ∧ l < p ∧ l < text.length ∧ text.getD l 0 = 32
        ∧ ∀ k, l < k → k < p → text.getD k 0 ≠ 32) →
    (ls ≠ none → col ≤ ww) →
    (∃ q, p ≤ q ∧ q ≤ text.length ∧ (q = text.length ∨ text.getD q 0 = 13)
        ∧ (∀ k, p ≤ k → k < q → text.getD k 0 ≠ 13)
        ∧ scanLine ww text fuel p0 p col ls = (listSlice text p0 q ++ [10], q + 1)
        ∧ ((∀ k, p ≤ k → k < q → text.getD k 0 ≠ 32) ∨ col + stepsFrom text fuel p ≤ ww)
        ∧ (ls ≠ none → col + stepsFrom text fuel p ≤ ww))
    ∨ (∃ s pt, p0 ≤ s ∧ s < pt ∧ s < text.length ∧ text.getD s 0 = 32
        ∧ (∀ k, s < k → k < pt → text.getD k 0 ≠ 32)
        ∧ (ls = none → p ≤ s)
        ∧ (∀ l, ls = some l → l ≤ s)
        ∧ scanLine ww text fuel p0 p col ls = (listSlice text p0 s ++ [10], s + 1)) := by
  intro fuel
  induction fuel with
  | zero =>
    intro p0 p col ls hfuel hple hp0 hls hcol
    omega
  | succ fuel ih =>
    intro p0 p col ls hfuel hple hp0 hls hcol
    rw [scanLine_succ]
    by_cases hA : text.length ≤ p
    · rw [if_pos hA]
      refine Or.inl ⟨p, le_refl p, hple, Or.inl (by omega), ?_, rfl, Or.inl ?_, ?_⟩
      · intro k hk1 hk2; omega
      · intro k hk1 hk2; omega
      · intro hne
        rw [stepsFrom_succ, if_pos (Or.inl hA)]
        have := hcol hne
        omega
    · rw [if_neg hA]
      by_cases hB : text.getD p 0 = 13
      · rw [if_pos hB]
        refine Or.inl ⟨p, le_refl p, hple, Or.inr hB, ?_, rfl, Or.inl ?_, ?_⟩
        · intro k hk1 hk2; omega
        · intro k hk1 hk2; omega
        · intro hne
          rw [stepsFrom_succ, if_pos (Or.inr hB)]
          have := hcol hne
          omega
      · rw [if_neg hB]
        have hdropnn : ∃ b r, text.drop p = b :: r := by
          rcases hd : text.drop p with _ | ⟨b, r⟩
          · exfalso
            have := List.length_drop p text
            rw [hd] at this
            simp at this
            omega
          · exact ⟨b, r, rfl⟩
        obtain ⟨b, r, hbr⟩ := hdropnn
        have hszpos : 1 ≤ decodeRuneSize (text.drop p) := by
          rw [hbr]; exact decodeRuneSize_pos b r
        have hszle : p + decodeRuneSize (text.drop p) ≤ text.length := by
          have h1 := decodeRuneSize_le_length (text.drop p)
          rw [List.length_drop] at h1
          omega
        have hskip : ∀ k, p < k → k < p + decodeRuneSize (text.drop p) →
            text.getD k 0 ≠ 32 ∧ text.getD k 0 ≠ 13 := by
          intro k hk1 hk2
          have := skipped_byte_ge text p k (by omega) hk1 hk2
          constructor <;> omega
        have hstep : stepsFrom text (fuel + 1) p
            = 1 + stepsFrom text fuel (p + decodeRuneSize (text.drop p)) := by
          rw [stepsFrom_succ, if_neg (by push_neg; exact ⟨by omega, hB⟩)]
        by_cases hsp : text.getD p 0 = 32
        · rw [if_pos hsp]
          by_cases hbr2 : col + 1 > ww ∧ (some p : Option Nat).isSome
          · rw [if_pos hbr2]
            refine Or.inr ⟨p, p + decodeRuneSize (text.drop p), hp0, by omega, by omega,
              hsp, ?_, fun _ => le_refl p, ?_, rfl⟩
            · intro k hk1 hk2
              exact (hskip k hk1 hk2).1
            · intro l hl
              have := hls l hl
              omega
          · rw [if_neg hbr2]
            have hls' : ∀ l, (some p : Option Nat) = some l →
                p0 ≤ l ∧ l < p + decodeRuneSize (text.drop p) ∧ l < text.length
                ∧ text.getD l 0 = 32
                ∧ ∀ k, l < k → k < p + decodeRuneSize (text.drop p) → text.getD k 0 ≠ 32 := by
              intro l hl
              injection hl with hl
              subst hl
              exact ⟨hp0, by omega, by omega, hsp, fun k hk1 hk2 => (hskip k hk1 hk2).1⟩
            have hcol' : (some p : Option Nat) ≠ none → col + 1 ≤ ww := by
              intro _
              by_contra hgt
              exact hbr2 ⟨by omega, rfl⟩
            have hrec := ih p0 (p + decodeRuneSize (text.drop p)) (col + 1) (some p)
              (by omega) hszle (by omega) hls' hcol'
            rcases hrec with ⟨q, hq1, hq2, hq3, hq4, hq5, _hq6, hq7⟩ |
              ⟨s, pt, hs1, hs2, hs3, hs4, hs5, _hs6, hs7, hs8⟩
            · refine Or.inl ⟨q, by omega, hq2, hq3, ?_, hq5, ?_, ?_⟩
              · intro k hk1 hk2
                rcases Nat.lt_or_ge k (p + decodeRuneSize (text.drop p)) with hk | hk
                · rcases Nat.eq_or_lt_of_le hk1 with heq | hk1'
                  · rw [← heq]; exact hB
                  · exact (hskip k hk1' hk).2
                · exact hq4 k hk hk2
              · right
                rw [hstep]
                have := hq7 (by simp)
                omega
              · intro _
                rw [hstep]
                have := hq7 (by simp)
                omega
            · refine Or.inr ⟨s, pt, hs1, hs2, hs3, hs4, hs5, ?_, ?_, hs8⟩
              · intro _
                have := hs7 p rfl
                omega
              · intro l hl
                have h1 := hls l hl
                have h2 := hs7 p rfl
                omega
        · rw [if_neg hsp]
          by_cases hbr2 : col + 1 > ww ∧ ls.isSome
          · rw [if_pos hbr2]
            have hlssome : ∃ l, ls = some l := by
              rcases ls with _ | l
              · simp at hbr2
              · exact ⟨l, rfl⟩
            obtain ⟨l, rfl⟩ := hlssome
            obtain ⟨hl1, hl2, hl3, hl4, hl5⟩ := hls l rfl
            refine Or.inr ⟨l, p + decodeRuneSize (text.drop p), hl1, by omega, hl3, hl4,
              ?_, ?_, ?_, rfl⟩
            · intro k hk1 hk2
              rcases Nat.lt_or_ge k p with hk | hk
              · exact hl5 k hk1 hk
              · rcases Nat.eq_or_lt_of_le hk with heq | hk'
                · rw [← heq]; exact hsp
                · exact (hskip k hk' hk2).1
            · intro hnone
              cases hnone
            · intro l' hl'
              injection hl' with hl'
              omega
          · rw [if_neg hbr2]
            have hls' : ∀ l, ls = some l →
                p0 ≤ l ∧ l < p + decodeRuneSize (text.drop p) ∧ l < text.length
                ∧ text.getD l 0 = 32
                ∧ ∀ k, l < k → k < p + decodeRuneSize (text.drop p) → text.getD k 0 ≠ 32 := by
              intro l hl
              obtain ⟨hl1, hl2, hl3, hl4, hl5⟩ := hls l hl
              refine ⟨hl1, by omega, hl3, hl4, ?_⟩
              intro k hk1 hk2
              rcases Nat.lt_or_ge k p with hk | hk
              · exact hl5 k hk1 hk
              · rcases Nat.eq_or_lt_of_le hk with heq | hk'
                · rw [← heq]; exact hsp
                · exact (hskip k hk' hk2).1
            have hcol' : ls ≠ none → col + 1 ≤ ww := by
              intro hne
              by_contra hgt
              apply hbr2
              refine ⟨by omega, ?_⟩
              rcases ls with _ | l
              · exact absurd rfl hne
              · rfl
            have hrec := ih p0 (p + decodeRuneSize (text.drop p)) (col + 1) ls
              (by omega) hszle (by omega) hls' hcol'
            rcases hrec with ⟨q, hq1, hq2, hq3, hq4, hq5, hq6, hq7⟩ |
              ⟨s, pt, hs1, hs2, hs3, hs4, hs5, hs6, hs7, hs8⟩
            · refine Or.inl ⟨q, by omega, hq2, hq3, ?_, hq5, ?_, ?_⟩
              · intro k hk1 hk2
                rcases Nat.lt_or_ge k (p + decodeRuneSize (text.drop p)) with hk | hk
                · rcases Nat.eq_or_lt_of_le hk1 with heq | hk1'
                  · rw [← heq]; exact hB
                  · exact (hskip k hk1' hk).2
                · exact hq4 k hk hk2
              · rcases hq6 with hq6 | hq6
                · left
                  intro k hk1 hk2
                  rcases Nat.lt_or_ge k (p + decodeRuneSize (text.drop p)) with hk | hk
                  · rcases Nat.eq_or_lt_of_le hk1 with heq | hk1'
                    · rw [← heq]; exact hsp
                    · exact (hskip k hk1' hk).1
                  · exact hq6 k hk hk2
                · right
                  rw [hstep]
                  omega
              · intro hne
                rw [hstep]
                have := hq7 hne
                omega
            · refine Or.inr ⟨s, pt, hs1, hs2, hs3, hs4, hs5, ?_, ?_, hs8⟩
              · intro hnone
                have := hs6 hnone
                omega
              · intro l hl
                exact hs7 l hl

/-- Witness for C6 (amended): scanning `"ab cd"` with wrap column 3 from
position 0 satisfies the invariants, and the characterization applies. -/
theorem C6_word_wrap_witness :
    (∃ q, 0 ≤ q ∧ q ≤ ([97, 98, 32, 99, 100] : List Nat).length
        ∧ (q = ([97, 98, 32, 99, 100] : List Nat).length
            ∨ ([97, 98, 32, 99, 100] : List Nat).getD q 0 = 13)
        ∧ (∀ k, 0 ≤ k → k < q → ([97, 98, 32, 99, 100] : List Nat).getD k 0 ≠ 13)
        ∧ scanLine 3 [97, 98, 32, 99, 100] 6 0 0 0 none
            = (listSlice [97, 98, 32, 99, 100] 0 q ++ [10], q + 1)
        ∧ ((∀ k, 0 ≤ k → k < q → ([97, 98, 32, 99, 100] : List Nat).getD k 0 ≠ 32)
            ∨ (0:Int) + (stepsFrom [97, 98, 32, 99, 100] 6 0 : Int) ≤ 3)
        ∧ ((none : Option Nat) ≠ none →
            (0:Int) + (stepsFrom [97, 98, 32, 99, 100] 6 0 : Int) ≤ 3))
    ∨ (∃ s pt, 0 ≤ s ∧ s < pt ∧ s < ([97, 98, 32, 99, 100] : List Nat).length
        ∧ ([97, 98, 32, 99, 100] : List Nat).getD s 0 = 32
        ∧ (∀ k, s < k → k < pt → ([97, 98, 32, 99, 100] : List Nat).getD k 0 ≠ 32)
        ∧ ((none : Option Nat) = none → 0 ≤ s)
        ∧ (∀ l, (none : Option Nat) = some l → l ≤ s)
        ∧ scanLine 3 [97, 98, 32, 99, 100] 6 0 0 0 none
            = (listSlice [97, 98, 32, 99, 100] 0 s ++ [10], s + 1)) :=
  C6_word_wrap 3 [97, 98, 32, 99, 100] 6 0 0 0 none (by decide) (by decide) (by decide)
    (fun l hl => nomatch hl) (fun h => absurd rfl h)

end Tabwriter
